import Mathlib

/-!
Shallow embedding of scripts/isomap.py: a research script that synthesizes
parametric chirp signals on a 3-D parameter grid, extracts several feature
families, embeds each feature space with Isomap, and plots parameter-recovery
ratios.  Definitions below are translated from the source; theorems settle
the specification's claims about it.
-/

namespace IsomapScript

/-! ## Module initialization (lines 13–19)

The script wraps the import of the optional dependency openl3 in try/except:
on failure it sets the flag to True and emits a warning. -/

/-- Outcome of the module-level try/except around importing openl3:
the pair (value of the flag named skip underscore openl3, warnings emitted). -/
def moduleInit (openl3_import_ok : Bool) : Bool × List String :=
  if openl3_import_ok then
    (false, [])
  else
    (true, ["Could not import `openl3`, will skip experiment"])

/-- The five feature extractors, in the order run underscore isomap calls them. -/
inductive Extractor
  | mfcc
  | ts
  | jtfs
  | openl3
  | strf
deriving DecidableEq, Repr

/-- The sequence of extractor invocations in run underscore isomap
(lines 246–250).  The module-level skip flag is in scope but the code never
branches on it, so the list does not depend on the argument. -/
def extractorCalls (_skip_flag : Bool) : List Extractor :=
  [Extractor.mfcc, Extractor.ts, Extractor.jtfs, Extractor.openl3, Extractor.strf]

/-- Executing one extractor: extract underscore openl3 (line 110) refers to the
name openl3, which is undefined when the import failed, so it raises there;
every other extractor runs. -/
def runExtractor (openl3_import_ok : Bool) (e : Extractor) : Except String Unit :=
  match e with
  | Extractor.openl3 =>
      if openl3_import_ok then Except.ok ()
      else Except.error "NameError: name openl3 is not defined"
  | _ => Except.ok ()

/-- The extractor stage of run underscore isomap as a fallible trace: runs the
calls of extractorCalls in order (with the module-level flag in scope),
accumulating the extractors that completed, stopping at the first failure. -/
def runExtractorStage (openl3_import_ok : Bool) : Except String (List Extractor) :=
  (extractorCalls (moduleInit openl3_import_ok).fst).foldlM
    (fun acc e => (runExtractor openl3_import_ok e).map (fun _ => acc ++ [e])) []

/-! ## Output-directory computation (line 236) -/

/-- Line 236 of run underscore isomap: out underscore dir is recomputed as the
Python string concatenation os.getcwd() + out underscore dir. -/
def effectiveOutDir (cwd out_dir : String) : String :=
  cwd ++ out_dir

/-! ## Filesystem events of the plotting stage (lines 144–219) -/

/-- os.path.join for a non-empty left part without a trailing separator and a
relative right part: joins with a single separator. -/
def pathJoin (a b : String) : String :=
  a ++ "/" ++ b

/-- The separator-delimited components of a path, as character lists. -/
def pathComponents (s : String) : List (List Char) :=
  s.data.splitOn '/'

/-- A filesystem side effect: directory creation or figure save. -/
inductive FsEvent
  | makedirs (path : String)
  | savefig (path : String)
deriving DecidableEq, Repr

/-- plot underscore isomap (lines 144–168) saves one figure at
os.path.join(out underscore dir, isomap.png). -/
def plot_isomap_events (out_dir : String) : List FsEvent :=
  [FsEvent.savefig (pathJoin out_dir "isomap.png")]

/-- plot underscore knn underscore regression (lines 171–196) saves one figure
at os.path.join(out underscore dir, knn.png). -/
def plot_knn_regression_events (out_dir : String) : List FsEvent :=
  [FsEvent.savefig (pathJoin out_dir "knn.png")]

/-- The filesystem events of run underscore isomaps (lines 199–219): for each
feature family in order, create the per-feature subdirectory and let
plot underscore isomap save into that subdirectory; afterwards
plot underscore knn underscore regression saves into out underscore dir. -/
def run_isomaps_events (feats : List String) (out_dir : String) : List FsEvent :=
  (feats.flatMap (fun feat =>
    FsEvent.makedirs (pathJoin out_dir feat) :: plot_isomap_events (pathJoin out_dir feat)))
  ++ plot_knn_regression_events out_dir

/-- The paths passed to plt.savefig during run underscore isomaps, in order. -/
def savefigPaths (feats : List String) (out_dir : String) : List String :=
  (run_isomaps_events feats out_dir).filterMap
    (fun e => match e with
      | FsEvent.savefig p => some p
      | _ => none)

/-- The paths passed to os.makedirs during run underscore isomaps, in order. -/
def makedirsPaths (feats : List String) (out_dir : String) : List String :=
  (run_isomaps_events feats out_dir).filterMap
    (fun e => match e with
      | FsEvent.makedirs p => some p
      | _ => none)

/-- The feature families of run underscore isomap's dictionary X (line 252). -/
def featureFamilies : List String :=
  ["MFCC", "TS", "JTFS", "OPEN-L3", "STRF"]

/-! ## The parameter grid and its flattening (generate underscore audio,
lines 39–52)

The triple loop fills cmap column c with (f0, fm, gamma) and increments c once
per innermost iteration, so the columns are the grid triples in lexicographic
order.  gridTriples is that column sequence. -/

/-- The inner two loops of generate underscore audio for a fixed f0: the
triples (f0, fm, gamma) in loop order. -/
def innerGrid {α : Type} (f0 : α) (fms gammas : List α) : List (α × α × α) :=
  fms.flatMap (fun fm => gammas.map (fun g => (f0, fm, g)))

/-- The columns of cmap in the order the counter c of generate underscore
audio produces them (lines 41–51). -/
def gridTriples {α : Type} (f0s fms gammas : List α) : List (α × α × α) :=
  f0s.flatMap (fun f0 => innerGrid f0 fms gammas)

/-- Recovering the grid indices (i, j, k) from a flat row index c of a
row-major reshape of a (·, m, k, ·) tensor, as in audio.reshape(-1,
audio.shape[-1]) at lines 247–250. -/
def reshapeIndex3 (m k c : ℕ) : ℕ × ℕ × ℕ :=
  (c / (m * k), (c / k) % m, c % k)

/-- Row c of audio.reshape(-1, audio.shape[-1]): the waveform of the grid
point whose indices reshapeIndex3 recovers from c. -/
def audioFlatRow (audio : ℕ → ℕ → ℕ → ℕ → ℝ) (m k c : ℕ) : ℕ → ℝ :=
  fun n =>
    audio (reshapeIndex3 m k c).1 (reshapeIndex3 m k c).2.1 (reshapeIndex3 m k c).2.2 n

/-! ## Grids and array shapes (run underscore isomap, lines 241–246) -/

/-- Base-10 logarithm, np.log10. -/
noncomputable def log10 (x : ℝ) : ℝ :=
  Real.logb 10 x

/-- np.logspace(lo, hi, num): num samples of 10 to a power, the exponents
spaced evenly from lo to hi inclusive. -/
noncomputable def logspace (lo hi : ℝ) (num : ℕ) : List ℝ :=
  (List.range num).map
    (fun idx : ℕ => (10:ℝ) ^ (lo + (hi - lo) * (idx:ℝ) / ((num:ℝ) - 1)))

/-- The time grid of generate (line 29): np.arange(-duration/2, duration/2,
1/sr), whose n-th sample is -duration/2 + n/sr. -/
noncomputable def tSample (duration sr n : ℕ) : ℝ :=
  -(duration:ℝ)/2 + (n:ℝ)/(sr:ℝ)

/-- The time grid as a list of length duration*sr. -/
noncomputable def sampleTimes (duration sr : ℕ) : List ℝ :=
  (List.range (duration * sr)).map (fun n => tSample duration sr n)

/-! ## The signal generator (generate, lines 27–36) -/

/-- scipy.signal.gaussian(M, std): sample n of the Gaussian window,
exp(-(n - (M-1)/2)^2 / (2 std^2)). -/
noncomputable def gaussianWindow (M : ℕ) (std : ℝ) (n : ℕ) : ℝ :=
  Real.exp (-((n:ℝ) - ((M:ℝ) - 1)/2)^2 / (2 * std^2))

/-- generate (lines 27–36): sample n of the windowed frequency-modulated
exponential chirp — carrier times modulator times Gaussian window. -/
noncomputable def generate (f_c f_m gamma bw : ℝ) (duration sr : ℕ) (n : ℕ) : ℝ :=
  let sigma0 : ℝ := 0.1
  let t := tSample duration sr n
  let chirp_phase := 2 * Real.pi * f_c / (gamma * Real.log 2) * ((2:ℝ) ^ (gamma * t) - 1)
  let carrier := Real.sin chirp_phase
  let modulator := Real.sin (2 * Real.pi * f_m * t)
  let window_std := sigma0 * bw / gamma
  carrier * modulator * gaussianWindow (duration * sr) (window_std * (sr:ℝ)) n

/-- The L2 norm of the first N samples of a signal, np.linalg.norm on a 1-D
array. -/
noncomputable def l2norm (N : ℕ) (x : ℕ → ℝ) : ℝ :=
  Real.sqrt (∑ n ∈ Finset.range N, x n ^ 2)

/-- The normalization at line 49: the signal divided by its L2 norm. -/
noncomputable def l2normalize (N : ℕ) (x : ℕ → ℝ) : ℕ → ℝ :=
  fun n => x n / l2norm N x

/-- audio[i, j, k, :] as stored by generate underscore audio (lines 48–49):
the waveform generated at the grid point, divided by its L2 norm (bw is
not passed at the call site, so generate's default bw = 2 applies). -/
noncomputable def audioEntry (f0s fms gammas : List ℝ) (duration sr : ℕ)
    (i j l : ℕ) : ℕ → ℝ :=
  l2normalize (duration * sr)
    (fun n => generate (f0s.getD i 0) (fms.getD j 0) (gammas.getD l 0) 2 duration sr n)

/-! ## The recovery-ratio computation (run underscore isomaps, lines 214–218) -/

/-- Entry (i, p) of the ratio matrix of run underscore isomaps (lines
215–218): np.exp(np.mean(np.log(cmap[:, knn[1][i, :]]), axis=1)) /
cmap[:, i], at parameter row p with neighbor indices nbrs. -/
noncomputable def ratioEntry (cmap : ℕ → ℕ → ℝ) (nbrs : List ℕ) (p i : ℕ) : ℝ :=
  Real.exp ((nbrs.map (fun j => Real.log (cmap p j))).sum / (nbrs.length : ℝ)) / cmap p i

/-- Geometric mean as the spec words it: the n-th root of the product. -/
noncomputable def geomMean (vals : List ℝ) : ℝ :=
  vals.prod ^ ((1:ℝ) / (vals.length : ℝ))

/-- The spec's description of the recovery ratio: the geometric mean of the
parameter's values over the sample's neighbors divided by the sample's own
true value. -/
noncomputable def ratioSpecEntry (cmap : ℕ → ℕ → ℝ) (nbrs : List ℕ) (p i : ℕ) : ℝ :=
  geomMean (nbrs.map (fun j => cmap p j)) / cmap p i

/-- Shape of the audio tensor allocated at line 40:
np.zeros((len(f0s), len(fms), len(gammas), duration*sr)). -/
def audioShape (f0s fms gammas : List ℝ) (duration sr : ℕ) : ℕ × ℕ × ℕ × ℕ :=
  (f0s.length, fms.length, gammas.length, duration * sr)

/-- Shape of the parameter map allocated at line 41:
np.zeros((3, len(f0s)*len(fms)*len(gammas))). -/
def cmapShape (f0s fms gammas : List ℝ) : ℕ × ℕ :=
  (3, f0s.length * fms.length * gammas.length)

/-- Shape of the table returned by extract underscore mfcc (line 63): the
(len(f0s), len(fms), len(gammas), n underscore mfcc) tensor reshaped to
(-1, n underscore mfcc). -/
def mfccShape (f0s fms gammas : List ℝ) (n_mfcc : ℕ) : ℕ × ℕ :=
  (f0s.length * fms.length * gammas.length, n_mfcc)

/-! ## Manifold-embedding stage neighbor validation -/

/-- Modelled from the spec: the neighbor-count validation of the
manifold-embedding stage.  The Isomap fit itself lives in the external
sklearn library, absent from src/; the spec requires that a neighbor count
greater than or equal to the sample count raise a clear error before the
model is fitted, never a silent truncation of the neighbor count.  A
returned value means the model was fitted with exactly that neighbor
count. -/
def isomapFit (n_neighbors n_samples : ℕ) : Except String ℕ :=
  if n_samples ≤ n_neighbors then
    Except.error "n_neighbors must be strictly less than n_samples"
  else
    Except.ok n_neighbors

end IsomapScript

namespace IsomapScript

/-! ## Theorems -/

/-- C1: if importing openl3 fails at module load, the flag is set to true and a
warning is emitted, yet the extractor sequence of run underscore isomap is the
same whatever the flag says and still contains the openl3 extractor, so the
run reaches extract underscore openl3 and crashes there after the first three
extractors complete. -/
theorem openl3_skip_flag_unused :
    (moduleInit false).fst = true
    ∧ (moduleInit false).snd = ["Could not import `openl3`, will skip experiment"]
    ∧ extractorCalls true = extractorCalls false
    ∧ Extractor.openl3 ∈ extractorCalls true
    ∧ Extractor.openl3 ∈ extractorCalls false
    ∧ runExtractorStage false = Except.error "NameError: name openl3 is not defined" := by
  refine ⟨rfl, rfl, rfl, ?_, ?_, rfl⟩ <;> decide

/-- C8: when the configured neighbor count is at least the number of samples,
the manifold-embedding stage raises a clear error before fitting rather than
silently truncating (modelled from the spec; the fit is delegated to the
external sklearn library). -/
theorem isomapFit_errors_when_neighbors_ge_samples
    (n_neighbors n_samples : ℕ) (h : n_samples ≤ n_neighbors) :
    isomapFit n_neighbors n_samples
      = Except.error "n_neighbors must be strictly less than n_samples" := by
  simp [isomapFit, h]

/-- Witness for C8 at the script's defaults: 40 neighbors, 8 samples. -/
theorem isomapFit_errors_when_neighbors_ge_samples_witness :
    8 ≤ 40
    ∧ isomapFit 40 8
        = Except.error "n_neighbors must be strictly less than n_samples" :=
  ⟨by decide, isomapFit_errors_when_neighbors_ge_samples 40 8 (by decide)⟩

theorem innerGrid_length {α : Type} (f0 : α) (fms gammas : List α) :
    (innerGrid f0 fms gammas).length = fms.length * gammas.length := by
  induction fms with
  | nil => simp [innerGrid]
  | cons fm fs ih =>
      simp only [innerGrid, List.flatMap_cons, List.length_append, List.length_map] at *
      rw [ih, List.length_cons, Nat.succ_mul, Nat.add_comm]

theorem gridTriples_length {α : Type} (f0s fms gammas : List α) :
    (gridTriples f0s fms gammas).length = f0s.length * (fms.length * gammas.length) := by
  induction f0s with
  | nil => simp [gridTriples]
  | cons f0 fs ih =>
      simp only [gridTriples, List.flatMap_cons, List.length_append] at *
      rw [ih, innerGrid_length, List.length_cons, Nat.succ_mul, Nat.add_comm]

theorem innerGrid_get {α : Type} (f0 : α) (fms gammas : List α) (j l : ℕ) (fm g : α)
    (hj : fms.get? j = some fm) (hl : gammas.get? l = some g) :
    (innerGrid f0 fms gammas).get? (j * gammas.length + l) = some (f0, fm, g) := by
  induction fms generalizing j with
  | nil => simp at hj
  | cons fm' fs ih =>
      match j with
      | 0 =>
          simp only [List.get?_cons_zero, Option.some_inj] at hj
          subst hj
          have hlt : l < gammas.length := by
            by_contra hge
            rw [List.get?_eq_none.mpr (Nat.le_of_not_lt hge)] at hl
            exact Option.noConfusion hl
          rw [innerGrid, List.flatMap_cons, Nat.zero_mul, Nat.zero_add]
          rw [List.get?_append (by simpa using hlt), List.get?_map, hl]
          rfl
      | j' + 1 =>
          rw [List.get?_cons_succ] at hj
          rw [innerGrid, List.flatMap_cons]
          have harith : (j' + 1) * gammas.length + l
              = gammas.length + (j' * gammas.length + l) := by ring
          rw [harith, List.get?_append_right (by simp)]
          simpa using ih j' hj

theorem gridTriples_get {α : Type} (f0s fms gammas : List α) (i j l : ℕ) (f0 fm g : α)
    (hi : f0s.get? i = some f0) (hj : fms.get? j = some fm) (hl : gammas.get? l = some g) :
    (gridTriples f0s fms gammas).get? ((i * fms.length + j) * gammas.length + l)
      = some (f0, fm, g) := by
  induction f0s generalizing i with
  | nil => simp at hi
  | cons f0' fs ih =>
      match i with
      | 0 =>
          simp only [List.get?_cons_zero, Option.some_inj] at hi
          subst hi
          have hjlt : j < fms.length := by
            by_contra hge
            rw [List.get?_eq_none.mpr (Nat.le_of_not_lt hge)] at hj
            exact Option.noConfusion hj
          have hbound : j * gammas.length + l < fms.length * gammas.length := by
            have hllt : l < gammas.length := by
              by_contra hge
              rw [List.get?_eq_none.mpr (Nat.le_of_not_lt hge)] at hl
              exact Option.noConfusion hl
            calc j * gammas.length + l < j * gammas.length + gammas.length := by omega
              _ = (j + 1) * gammas.length := by ring
              _ ≤ fms.length * gammas.length := Nat.mul_le_mul_right _ hjlt
          rw [gridTriples, List.flatMap_cons, Nat.zero_mul, Nat.zero_add]
          rw [List.get?_append (by rw [innerGrid_length]; exact hbound)]
          exact innerGrid_get f0' fms gammas j l fm g hj hl
      | i' + 1 =>
          rw [List.get?_cons_succ] at hi
          rw [gridTriples, List.flatMap_cons]
          have harith : ((i' + 1) * fms.length + j) * gammas.length + l
              = fms.length * gammas.length
                + ((i' * fms.length + j) * gammas.length + l) := by ring
          rw [harith, List.get?_append_right (by rw [innerGrid_length]; omega)]
          rw [innerGrid_length, Nat.add_sub_cancel_left]
          exact ih i' hi

theorem reshapeIndex3_flatten (m k i j l : ℕ) (hj : j < m) (hl : l < k) :
    reshapeIndex3 m k ((i * m + j) * k + l) = (i, j, l) := by
  have hk : 0 < k := by omega
  have hm : 0 < m := by omega
  have hdivk : ((i * m + j) * k + l) / k = i * m + j := by
    rw [mul_comm (i * m + j) k, Nat.mul_add_div hk, Nat.div_eq_of_lt hl, Nat.add_zero]
  have hmodk : ((i * m + j) * k + l) % k = l := by
    rw [mul_comm (i * m + j) k, Nat.mul_add_mod, Nat.mod_eq_of_lt hl]
  have hdivmk : ((i * m + j) * k + l) / (m * k) = i := by
    have he : (i * m + j) * k + l = (m * k) * i + (j * k + l) := by ring
    have hrest : (j * k + l) / (m * k) = 0 := by
      refine Nat.div_eq_of_lt ?_
      calc j * k + l < j * k + k := by omega
        _ = (j + 1) * k := by ring
        _ ≤ m * k := Nat.mul_le_mul_right _ hj
    rw [he, Nat.mul_add_div (Nat.mul_pos hm hk), hrest, Nat.add_zero]
  have hmodm : (i * m + j) % m = j := by
    rw [mul_comm i m, Nat.mul_add_mod, Nat.mod_eq_of_lt hj]
  unfold reshapeIndex3
  rw [hdivmk, hdivk, hmodm, hmodk]

/-- C3: for grid indices (i, j, k) with flat index c = (i*len(fms)+j)*
len(gammas)+k, column c of the parameter map holds exactly (f0s[i], fms[j],
gammas[k]), the grid indices are re-derivable from c by the row-major
reshape arithmetic, and row c of audio.reshape(-1, duration*sr) — the row
fed to every extractor — is the waveform of that same grid point. -/
theorem cmap_audio_row_correspondence {α : Type} (f0s fms gammas : List α)
    (audio : ℕ → ℕ → ℕ → ℕ → ℝ) (i j l : ℕ) (f0 fm g : α)
    (hi : f0s.get? i = some f0) (hj : fms.get? j = some fm)
    (hl : gammas.get? l = some g) :
    (gridTriples f0s fms gammas).get? ((i * fms.length + j) * gammas.length + l)
        = some (f0, fm, g)
    ∧ reshapeIndex3 fms.length gammas.length
        ((i * fms.length + j) * gammas.length + l) = (i, j, l)
    ∧ audioFlatRow audio fms.length gammas.length
        ((i * fms.length + j) * gammas.length + l) = audio i j l := by
  have hjlt : j < fms.length := by
    by_contra hge
    rw [List.get?_eq_none.mpr (Nat.le_of_not_lt hge)] at hj
    exact Option.noConfusion hj
  have hllt : l < gammas.length := by
    by_contra hge
    rw [List.get?_eq_none.mpr (Nat.le_of_not_lt hge)] at hl
    exact Option.noConfusion hl
  have hflat := reshapeIndex3_flatten fms.length gammas.length i j l hjlt hllt
  refine ⟨gridTriples_get f0s fms gammas i j l f0 fm g hi hj hl, hflat, ?_⟩
  funext n
  simp [audioFlatRow, hflat]

/-- Witness for C3 on the two-point grids, at grid point (1, 0, 1),
flat index 5. -/
theorem cmap_audio_row_correspondence_witness :
    ([512, 1024] : List ℕ).get? 1 = some 1024
    ∧ ([4, 16] : List ℕ).get? 0 = some 4
    ∧ ([1, 4] : List ℕ).get? 1 = some 4
    ∧ ((gridTriples [512, 1024] [4, 16] [1, 4]).get? 5 = some (1024, 4, 4)
        ∧ reshapeIndex3 2 2 5 = (1, 0, 1)
        ∧ audioFlatRow (fun _ _ _ _ => (0:ℝ)) 2 2 5
            = (fun _ _ _ _ => (0:ℝ)) 1 0 1) := by
  refine ⟨rfl, rfl, rfl, ?_⟩
  exact cmap_audio_row_correspondence [512, 1024] [4, 16] [1, 4]
    (fun _ _ _ _ => (0:ℝ)) 1 0 1 1024 4 4 rfl rfl rfl

/-- C7: with n underscore steps = 2 and the grids of the scenario, the audio
tensor has shape (2, 2, 2, 1024), the MFCC table shape (8, 20) and the
parameter map shape (3, 8); in general the feature-table row count is the
product of the three grid lengths and each waveform has duration*sr
samples. -/
theorem pipeline_shapes :
    (logspace (log10 512) (log10 1024) 2).length = 2
    ∧ (logspace (log10 4) (log10 16) 2).length = 2
    ∧ (logspace (log10 (1/2)) (log10 4) 2).length = 2
    ∧ audioShape (logspace (log10 512) (log10 1024) 2)
        (logspace (log10 4) (log10 16) 2) (logspace (log10 (1/2)) (log10 4) 2)
        1 (2^10) = (2, 2, 2, 1024)
    ∧ cmapShape (logspace (log10 512) (log10 1024) 2)
        (logspace (log10 4) (log10 16) 2) (logspace (log10 (1/2)) (log10 4) 2)
        = (3, 8)
    ∧ mfccShape (logspace (log10 512) (log10 1024) 2)
        (logspace (log10 4) (log10 16) 2) (logspace (log10 (1/2)) (log10 4) 2)
        20 = (8, 20)
    ∧ (∀ f0s fms gammas : List ℝ, ∀ n_mfcc : ℕ,
        (mfccShape f0s fms gammas n_mfcc).1
          = f0s.length * fms.length * gammas.length
        ∧ (gridTriples f0s fms gammas).length = (cmapShape f0s fms gammas).2)
    ∧ (∀ duration sr : ℕ, (sampleTimes duration sr).length = duration * sr) := by
  have hlen : ∀ lo hi : ℝ, ∀ num : ℕ, (logspace lo hi num).length = num := by
    intro lo hi num
    rw [logspace, List.length_map, List.length_range]
  refine ⟨hlen _ _ 2, hlen _ _ 2, hlen _ _ 2, ?_, ?_, ?_, ?_, ?_⟩
  · simp [audioShape, hlen]
  · simp [cmapShape, hlen]
  · simp [mfccShape, hlen]
  · intro f0s fms gammas n_mfcc
    exact ⟨rfl, by rw [gridTriples_length, cmapShape, Nat.mul_assoc]⟩
  · intro duration sr
    simp [sampleTimes]

theorem savefigPaths_eq (feats : List String) (out_dir : String) :
    savefigPaths feats out_dir
      = feats.map (fun feat => pathJoin (pathJoin out_dir feat) "isomap.png")
        ++ [pathJoin out_dir "knn.png"] := by
  induction feats with
  | nil => rfl
  | cons f fs ih =>
      simp only [savefigPaths, run_isomaps_events, List.flatMap_cons, List.cons_append,
        List.filterMap_cons, plot_isomap_events, plot_knn_regression_events,
        List.filterMap_append, List.map_cons] at ih ⊢
      simp only [List.append_assoc, List.cons_append] at ih ⊢
      rw [ih]
      rfl

theorem makedirsPaths_eq (feats : List String) (out_dir : String) :
    makedirsPaths feats out_dir = feats.map (fun feat => pathJoin out_dir feat) := by
  induction feats with
  | nil => rfl
  | cons f fs ih =>
      simp only [makedirsPaths, run_isomaps_events, List.flatMap_cons, List.cons_append,
        List.filterMap_cons, plot_isomap_events, plot_knn_regression_events,
        List.filterMap_append, List.map_cons, List.filterMap_nil, List.append_nil,
        List.nil_append] at ih ⊢
      rw [ih]

/-- C6 counterexample: with the run's five feature families and a concrete
output directory, run underscore isomaps saves six PNGs, not two, and none
of them is out underscore dir/isomap.png: plot underscore isomap is called
with the per-feature subdirectory, so each isomap.png lands inside a
feature subdirectory. -/
theorem run_isomaps_two_pngs_counterexample :
    savefigPaths featureFamilies "/work/img"
      = ["/work/img/MFCC/isomap.png", "/work/img/TS/isomap.png",
         "/work/img/JTFS/isomap.png", "/work/img/OPEN-L3/isomap.png",
         "/work/img/STRF/isomap.png", "/work/img/knn.png"]
    ∧ (savefigPaths featureFamilies "/work/img").length ≠ 2
    ∧ pathJoin "/work/img" "isomap.png" ∉ savefigPaths featureFamilies "/work/img" := by
  refine ⟨?_, ?_, ?_⟩ <;> decide

/-- C6 amended: each run writes one isomap.png inside every per-feature
subdirectory of the output directory plus the ratio strip plot at
out underscore dir/knn.png — one PNG per feature family plus one, not two —
and the per-feature loop creates one subdirectory per feature family inside
out underscore dir. -/
theorem run_isomaps_writes_feature_pngs (feats : List String) (out_dir : String) :
    savefigPaths feats out_dir
      = feats.map (fun feat => pathJoin (pathJoin out_dir feat) "isomap.png")
        ++ [pathJoin out_dir "knn.png"]
    ∧ (savefigPaths feats out_dir).length = feats.length + 1
    ∧ makedirsPaths feats out_dir = feats.map (fun feat => pathJoin out_dir feat) := by
  refine ⟨savefigPaths_eq feats out_dir, ?_, makedirsPaths_eq feats out_dir⟩
  rw [savefigPaths_eq feats out_dir]
  simp

/-- C10: run underscore isomap computes the effective output directory by plain
string concatenation of the working directory and the out underscore dir
argument, so the default absolute-looking /img lands under the working
directory, any other absolute-looking path is likewise reinterpreted under
the working directory, and a relative path with no leading separator is
fused onto the last component of the working directory instead of being
nested inside it. -/
theorem effectiveOutDir_is_string_concat :
    (∀ cwd out_dir : String, effectiveOutDir cwd out_dir = cwd ++ out_dir)
    ∧ effectiveOutDir "/home/user" "/img" = "/home/user/img"
    ∧ effectiveOutDir "/home/user" "/data/img" = "/home/user/data/img"
    ∧ effectiveOutDir "/home/user" "img" = "/home/userimg"
    ∧ pathComponents (effectiveOutDir "/home/user" "img")
        = [[], ['h','o','m','e'], ['u','s','e','r','i','m','g']]
    ∧ pathComponents (effectiveOutDir "/home/user" "img")
        ≠ pathComponents "/home/user/img" := by
  refine ⟨fun _ _ => rfl, rfl, rfl, rfl, ?_, ?_⟩ <;> decide

theorem log_list_prod (l : List ℝ) (h : ∀ x ∈ l, 0 < x) :
    Real.log l.prod = (l.map Real.log).sum := by
  induction l with
  | nil => simp
  | cons a tl ih =>
      have ha : 0 < a := h a (List.mem_cons_self a tl)
      have htl : ∀ x ∈ tl, 0 < x := fun x hx => h x (List.mem_cons_of_mem a hx)
      have hprod : 0 < tl.prod := List.prod_pos htl
      rw [List.prod_cons, Real.log_mul (ne_of_gt ha) (ne_of_gt hprod), List.map_cons,
        List.sum_cons, ih htl]

/-- C2: the recovery ratio computed by run underscore isomaps — exp of the
mean of the logs of the parameter's values over the sample's neighbors,
divided by the sample's own true value — is exactly the geometric mean of
those neighbor values divided by the sample's own true value, whenever the
parameter values at the neighbors are positive. -/
theorem ratio_is_geometric_mean (cmap : ℕ → ℕ → ℝ) (nbrs : List ℕ) (p i : ℕ)
    (hpos : ∀ j ∈ nbrs, 0 < cmap p j) :
    ratioEntry cmap nbrs p i = ratioSpecEntry cmap nbrs p i := by
  unfold ratioEntry ratioSpecEntry geomMean
  have hpos' : ∀ x ∈ nbrs.map (fun j => cmap p j), 0 < x := by
    intro x hx
    obtain ⟨j, hj, rfl⟩ := List.mem_map.mp hx
    exact hpos j hj
  have hprod : 0 < (nbrs.map (fun j => cmap p j)).prod := List.prod_pos hpos'
  rw [Real.rpow_def_of_pos hprod, log_list_prod _ hpos', List.map_map, List.length_map,
    mul_one_div]
  rfl

/-- Witness for C2 with a one-neighbor list and the constant parameter map
1. -/
theorem ratio_is_geometric_mean_witness :
    (∀ j ∈ ([0] : List ℕ), 0 < (fun _ _ => (1:ℝ)) 0 j)
    ∧ ratioEntry (fun _ _ => (1:ℝ)) [0] 0 0
        = ratioSpecEntry (fun _ _ => (1:ℝ)) [0] 0 0 := by
  refine ⟨by norm_num, ?_⟩
  exact ratio_is_geometric_mean (fun _ _ => (1:ℝ)) [0] 0 0 (by norm_num)

/-- C9: when the sample's true parameter value is positive — as it is for
every value of the log-spaced grids, which are powers of 10 — the recovery
ratio is strictly positive and its base-2 logarithm is a finite real
exponent recovering the ratio. -/
theorem ratio_pos_log2_finite (cmap : ℕ → ℕ → ℝ) (nbrs : List ℕ) (p i : ℕ)
    (lo hi : ℝ) (num : ℕ) (hpos : 0 < cmap p i) :
    0 < ratioEntry cmap nbrs p i
    ∧ (2:ℝ) ^ Real.logb 2 (ratioEntry cmap nbrs p i) = ratioEntry cmap nbrs p i
    ∧ ∀ x ∈ logspace lo hi num, 0 < x := by
  have hr : 0 < ratioEntry cmap nbrs p i := div_pos (Real.exp_pos _) hpos
  refine ⟨hr, Real.rpow_logb (by norm_num) (by norm_num) hr, ?_⟩
  intro x hx
  obtain ⟨idx, _, rfl⟩ := List.mem_map.mp hx
  exact Real.rpow_pos_of_pos (by norm_num) _

/-- Witness for C9 with the constant parameter map 2. -/
theorem ratio_pos_log2_finite_witness :
    0 < (fun _ _ => (2:ℝ)) 0 0
    ∧ (0 < ratioEntry (fun _ _ => (2:ℝ)) [0] 0 0
        ∧ (2:ℝ) ^ Real.logb 2 (ratioEntry (fun _ _ => (2:ℝ)) [0] 0 0)
            = ratioEntry (fun _ _ => (2:ℝ)) [0] 0 0
        ∧ ∀ x ∈ logspace 0 1 2, 0 < x) := by
  refine ⟨by norm_num, ?_⟩
  exact ratio_pos_log2_finite (fun _ _ => (2:ℝ)) [0] 0 0 0 1 2 (by norm_num)

theorem l2norm_ne_zero (N : ℕ) (x : ℕ → ℝ)
    (h : ∃ n ∈ Finset.range N, x n ≠ 0) : l2norm N x ≠ 0 := by
  obtain ⟨n, hn, hx⟩ := h
  have hpos : 0 < ∑ m ∈ Finset.range N, x m ^ 2 := by
    refine Finset.sum_pos' (fun m _ => sq_nonneg (x m)) ⟨n, hn, ?_⟩
    exact pow_two_pos_of_ne_zero hx
  rw [l2norm]
  exact ne_of_gt (Real.sqrt_pos.mpr hpos)

theorem l2norm_l2normalize (N : ℕ) (x : ℕ → ℝ) (h : l2norm N x ≠ 0) :
    l2norm N (l2normalize N x) = 1 := by
  have hS : (0:ℝ) ≤ ∑ m ∈ Finset.range N, x m ^ 2 :=
    Finset.sum_nonneg (fun m _ => sq_nonneg (x m))
  have hsq : l2norm N x ^ 2 = ∑ m ∈ Finset.range N, x m ^ 2 := Real.sq_sqrt hS
  have hSne : (∑ m ∈ Finset.range N, x m ^ 2) ≠ 0 := by
    intro h0
    apply h
    rw [l2norm, h0, Real.sqrt_zero]
  rw [l2norm]
  have hterm : ∀ m, l2normalize N x m ^ 2
      = x m ^ 2 / (∑ k ∈ Finset.range N, x k ^ 2) := by
    intro m
    rw [l2normalize, div_pow, hsq]
  simp only [hterm]
  rw [← Finset.sum_div, div_self hSne, Real.sqrt_one]

/-- C5: each waveform stored in the audio tensor by generate underscore
audio — the generated signal divided by its L2 norm — has L2 norm exactly 1,
for every grid point at which the raw generated signal is nonzero. -/
theorem audio_entry_unit_norm (f0s fms gammas : List ℝ) (duration sr : ℕ) (i j l : ℕ)
    (h : ∃ n ∈ Finset.range (duration * sr),
          generate (f0s.getD i 0) (fms.getD j 0) (gammas.getD l 0) 2 duration sr n ≠ 0) :
    l2norm (duration * sr) (audioEntry f0s fms gammas duration sr i j l) = 1 := by
  rw [audioEntry]
  exact l2norm_l2normalize _ _ (l2norm_ne_zero _ _ h)

theorem generate_nonzero_sample :
    generate ((1:ℝ)/2) ((1:ℝ)/8) 1 2 2 1 0 ≠ 0 := by
  have hlog2 : (0:ℝ) < Real.log 2 := Real.log_pos (by norm_num)
  have hlog2' : (1:ℝ)/2 < Real.log 2 := by
    have h := Real.log_two_gt_d9
    norm_num at h ⊢
    linarith
  have hπ := Real.pi_pos
  have ht : tSample 2 1 0 = -1 := by
    rw [tSample]
    norm_num
  have hgen : generate ((1:ℝ)/2) ((1:ℝ)/8) 1 2 2 1 0
      = Real.sin (2 * Real.pi * ((1:ℝ)/2) / (1 * Real.log 2)
            * ((2:ℝ) ^ ((1:ℝ) * tSample 2 1 0) - 1))
        * Real.sin (2 * Real.pi * ((1:ℝ)/8) * tSample 2 1 0)
        * gaussianWindow (2 * 1) ((0.1 * 2 / 1) * ((1:ℕ):ℝ)) 0 := rfl
  have h2 : (2:ℝ) ^ ((1:ℝ) * (-1:ℝ)) = 1/2 := by
    rw [one_mul, Real.rpow_neg_one]
    norm_num
  have harg : 2 * Real.pi * ((1:ℝ)/2) / (1 * Real.log 2)
      * ((2:ℝ) ^ ((1:ℝ) * (-1:ℝ)) - 1) = -(Real.pi / (2 * Real.log 2)) := by
    rw [h2]
    field_simp
    ring
  have hcar : Real.sin (2 * Real.pi * ((1:ℝ)/2) / (1 * Real.log 2)
      * ((2:ℝ) ^ ((1:ℝ) * (-1:ℝ)) - 1)) ≠ 0 := by
    rw [harg, Real.sin_neg, neg_ne_zero]
    refine ne_of_gt (Real.sin_pos_of_pos_of_lt_pi (by positivity) ?_)
    rw [div_lt_iff₀ (by linarith : (0:ℝ) < 2 * Real.log 2)]
    nlinarith
  have hmodarg : 2 * Real.pi * ((1:ℝ)/8) * (-1:ℝ) = -(Real.pi / 4) := by ring
  have hmod : Real.sin (2 * Real.pi * ((1:ℝ)/8) * (-1:ℝ)) ≠ 0 := by
    rw [hmodarg, Real.sin_neg, neg_ne_zero]
    refine ne_of_gt (Real.sin_pos_of_pos_of_lt_pi (by positivity) (by linarith))
  have hwin : gaussianWindow (2 * 1) ((0.1 * 2 / 1) * ((1:ℕ):ℝ)) 0 ≠ 0 := by
    rw [gaussianWindow]
    exact ne_of_gt (Real.exp_pos _)
  rw [hgen, ht]
  exact mul_ne_zero (mul_ne_zero hcar hmod) hwin

/-- Witness for C5 on the one-point grid f0 = 1/2, fm = 1/8, gamma = 1 with
duration 2 and sample rate 1: the raw signal's sample 0 is nonzero. -/
theorem audio_entry_unit_norm_witness :
    (∃ n ∈ Finset.range (2 * 1),
        generate (([(1:ℝ)/2]).getD 0 0) (([(1:ℝ)/8]).getD 0 0) (([(1:ℝ)]).getD 0 0)
          2 2 1 n ≠ 0)
    ∧ l2norm (2 * 1) (audioEntry [(1:ℝ)/2] [(1:ℝ)/8] [(1:ℝ)] 2 1 0 0 0) = 1 := by
  have h : ∃ n ∈ Finset.range (2 * 1),
      generate (([(1:ℝ)/2]).getD 0 0) (([(1:ℝ)/8]).getD 0 0) (([(1:ℝ)]).getD 0 0)
        2 2 1 n ≠ 0 :=
    ⟨0, by decide, generate_nonzero_sample⟩
  exact ⟨h, audio_entry_unit_norm [(1:ℝ)/2] [(1:ℝ)/8] [(1:ℝ)] 2 1 0 0 0 h⟩

/-- C4: for positive gamma, sample n of the generated waveform is
sin(2 pi f_c / (gamma ln 2) (2^(gamma t_n) - 1)) times sin(2 pi f_m t_n)
times the Gaussian window of length duration*sr at n, with t_n =
-duration/2 + n/sr, and the window's standard deviation 0.1*bw/gamma*sr is
inversely proportional to gamma: multiplying it by gamma gives the constant
0.1*bw*sr. -/
theorem generate_formula (f_c f_m gamma bw : ℝ) (duration sr : ℕ) (n : ℕ)
    (hγ : 0 < gamma) :
    generate f_c f_m gamma bw duration sr n
      = Real.sin (2 * Real.pi * f_c / (gamma * Real.log 2)
            * ((2:ℝ) ^ (gamma * tSample duration sr n) - 1))
        * Real.sin (2 * Real.pi * f_m * tSample duration sr n)
        * gaussianWindow (duration * sr) ((0.1 * bw / gamma) * (sr:ℝ)) n
    ∧ ((0.1 * bw / gamma) * (sr:ℝ)) * gamma = 0.1 * bw * (sr:ℝ) := by
  refine ⟨rfl, ?_⟩
  have hne : gamma ≠ 0 := ne_of_gt hγ
  field_simp

/-- Witness for C4 at f_c = f_m = gamma = 1, bw = 2, duration 2, sample rate
1, sample 0. -/
theorem generate_formula_witness :
    (0:ℝ) < 1
    ∧ (generate 1 1 1 2 2 1 0
        = Real.sin (2 * Real.pi * 1 / (1 * Real.log 2)
              * ((2:ℝ) ^ (1 * tSample 2 1 0) - 1))
          * Real.sin (2 * Real.pi * 1 * tSample 2 1 0)
          * gaussianWindow (2 * 1) ((0.1 * 2 / 1) * ((1:ℕ):ℝ)) 0
        ∧ ((0.1 * 2 / 1) * ((1:ℕ):ℝ)) * 1 = 0.1 * 2 * ((1:ℕ):ℝ)) := by
  exact ⟨by norm_num, generate_formula 1 1 1 2 2 1 0 (by norm_num)⟩

end IsomapScript
